import Mathlib

/-!
Verification of the fileman dual-panel file manager (src/main.rs) against its
specification.  The development shallowly embeds the data model, the directory
and archive readers, the streaming enumerators, and the per-tick panel pump of
the source, and settles the spec claims about them.

Modelling conventions:
* byte strings (Rust `String` contents, compared byte-wise by `cmp`) are
  `List Nat`;
* filesystem paths (`PathBuf`) are lists of components of an absolute path;
  `Path::parent` is `none` exactly on the root, i.e. on `[]`;
* fallible backend reads are `Option` values supplied as oracle arguments;
* `f32` arithmetic in `is_probably_text` is replaced by the exact rational
  comparison it computes (see the doc comment there).
-/

namespace Fileman

/-- Byte strings: Rust `String` contents compared byte-wise. -/
abbrev Bytes := List Nat

/-- The `/` separator byte used inside archive member names. -/
def slashByte : Nat := 47

/-- The name of the synthetic parent entry, `".."` as bytes. -/
def dotdotName : Bytes := [46, 46]

/-- Absolute filesystem paths, as their list of components.
`[]` is the filesystem root, whose `parent()` is `None`. -/
abbrev FsPath := List Bytes

/-- Source `EntryLocation` (src/main.rs:489): a filesystem path or an archive
member address. -/
inductive EntryLocation
  | Fs (path : FsPath)
  | Zip (archive_path : FsPath) (inner_path : Bytes)
deriving DecidableEq, Repr

/-- Source `DirEntry` (src/main.rs:498). -/
structure DirEntry where
  name : Bytes
  is_dir : Bool
  location : EntryLocation
deriving DecidableEq, Repr

instance : Inhabited DirEntry := ⟨⟨[], false, .Fs []⟩⟩

/-- One raw result of `fs::read_dir`: a file name and its file type, in the
live enumeration order of the directory.  All `file_type()` calls are assumed
to succeed (the readers otherwise fail or skip the entry). -/
structure RawEntry where
  name : Bytes
  is_dir : Bool
deriving DecidableEq, Repr

/-- Rust `Path::parent().is_some()` on the component model. -/
def hasParent : FsPath → Bool
  | [] => false
  | _ :: _ => true

/-- Rust `Path::parent().unwrap()` on the component model. -/
def parentPath (p : FsPath) : FsPath := p.dropLast

/-- Rust `DirEntry::path()`: the scanned directory joined with the file name. -/
def childPath (p : FsPath) (n : Bytes) : FsPath := p ++ [n]

/-- The placeholder `".."` entry built for a filesystem directory
(src/main.rs:706, src/main.rs:929). -/
def fsParentEntry (p : FsPath) : DirEntry :=
  ⟨dotdotName, true, .Fs (parentPath p)⟩

/-- The `DirEntry` built from one `fs::read_dir` result for directory `p`
(src/main.rs:917). -/
def mkFsEntry (p : FsPath) (r : RawEntry) : DirEntry :=
  ⟨r.name, r.is_dir, .Fs (childPath p r.name)⟩

/-- Byte-wise lexicographic order on byte strings: Rust `String::cmp`
restricted to `Ordering::is_le`. -/
def bytesLe : Bytes → Bytes → Bool
  | [], _ => true
  | _ :: _, [] => false
  | a :: as, b :: bs => if a < b then true else if b < a then false else bytesLe as bs

/-- The entry comparator of `read_fs_directory` (src/main.rs:925):
`b.is_dir.cmp(&a.is_dir).then_with(|| a.name.cmp(&b.name))` restricted to
`is_le`, i.e. directories before files, then names byte-wise ascending. -/
def entryLe (a b : DirEntry) : Bool :=
  (a.is_dir && !b.is_dir) || (a.is_dir == b.is_dir && bytesLe a.name b.name)

/-- The comparator as a relation, for the sorting lemmas. -/
def entryRel (a b : DirEntry) : Prop := entryLe a b = true

instance : DecidableRel entryRel := fun a b =>
  inferInstanceAs (Decidable (entryLe a b = true))

/-- The name-only comparator of `read_zip_directory` (src/main.rs:1032):
`a.name.cmp(&b.name)` restricted to `is_le`. -/
def nameRel (a b : DirEntry) : Prop := bytesLe a.name b.name = true

instance : DecidableRel nameRel := fun a b =>
  inferInstanceAs (Decidable (bytesLe a.name b.name = true))

/-- Rust `Vec::sort_by` with the directories-first comparator.  `sort_by` is a
stable sort; since the claims proved below depend only on the result being a
sorted permutation (ties have equal keys), insertion sort realises it. -/
def sortEntries (l : List DirEntry) : List DirEntry :=
  List.insertionSort entryRel l

/-- Rust `Vec::sort_by` with the name-only comparator (zip reader). -/
def sortEntriesByName (l : List DirEntry) : List DirEntry :=
  List.insertionSort nameRel l

/-- Source `read_fs_directory` (src/main.rs:903): list the directory, sort
directories-first then byte-alphabetical, and prepend a `".."` entry exactly
when the directory has a parent.  `l` is the `fs::read_dir` result in live
enumeration order; I/O and `file_type` failures abort the whole read and are
outside this success-path model. -/
def read_fs_directory (p : FsPath) (l : List RawEntry) : List DirEntry :=
  (if hasParent p then [fsParentEntry p] else []) ++ sortEntries (l.map (mkFsEntry p))

/-- Rust `str::trim_end_matches('/')`: remove every trailing slash byte. -/
def trimEndSlashes (s : Bytes) : Bytes :=
  ((s.reverse.dropWhile (fun c => c == slashByte)).reverse)

/-- Rust `str::rsplit_once('/')`: split at the last slash byte, `none` when no
slash occurs. -/
def rsplitOnceSlash : Bytes → Option (Bytes × Bytes)
  | [] => none
  | c :: cs =>
    match rsplitOnceSlash cs with
    | some (p, q) => some (c :: p, q)
    | none => if c = slashByte then some ([], cs) else none

/-- The parent inner path of a non-root archive cwd (src/main.rs:976):
`cwd.trim_end_matches('/').rsplit_once('/')`, with `""` when no slash is
left. -/
def zipParentOf (cwd : Bytes) : Bytes :=
  match rsplitOnceSlash (trimEndSlashes cwd) with
  | some (p, _) => p
  | none => []

/-- Rust `str::find('/')` followed by slicing (src/main.rs:964): split a
member remainder at its first slash byte. -/
def splitFirstSlash : Bytes → Option (Bytes × Bytes)
  | [] => none
  | c :: cs =>
    if c = slashByte then some ([], cs)
    else (splitFirstSlash cs).map (fun pq => (c :: pq.1, pq.2))

/-- The member-name filter prefix of `read_zip_directory` (src/main.rs:948):
empty at the archive root, otherwise `cwd` slash-trimmed plus `"/"`. -/
def zipScanPfx (cwd : Bytes) : Bytes :=
  if cwd = [] then [] else trimEndSlashes cwd ++ [slashByte]

/-- Rust `HashSet::insert` on the list model: keep the element set duplicate
free.  Iteration order of the set is irrelevant to the reader because its
output is sorted afterwards. -/
def insertUniq (x : Bytes) (l : List Bytes) : List Bytes :=
  if x ∈ l then l else l ++ [x]

/-- One iteration of the member scan loop of `read_zip_directory`
(src/main.rs:954): a member starting with the prefix and nonempty beyond it
contributes the remainder's part before its first slash as a synthesized
subdirectory, or the whole remainder as a file. -/
def zipScanStep (pfx : Bytes) (acc : List Bytes × List Bytes) (m : Bytes) :
    List Bytes × List Bytes :=
  if pfx.isPrefixOf m then
    if m.drop pfx.length = [] then acc
    else
      match splitFirstSlash (m.drop pfx.length) with
      | some (d, _) => (insertUniq d acc.1, acc.2)
      | none => (acc.1, acc.2 ++ [m.drop pfx.length])
  else acc

/-- The member scan loop of `read_zip_directory` (src/main.rs:954) over every
archive member name: collected synthesized subdirectory names (deduplicated)
and plain file names (in member order). -/
def zipScan (pfx : Bytes) (members : List Bytes) : List Bytes × List Bytes :=
  members.foldl (zipScanStep pfx) ([], [])

/-- The inner path given to a synthesized zip entry (src/main.rs:1007):
the name itself at the root, otherwise `cwd` slash-trimmed, `"/"`, name. -/
def zipInnerPath (cwd d : Bytes) : Bytes :=
  if cwd = [] then d else trimEndSlashes cwd ++ [slashByte] ++ d

/-- The parent block shared by `read_zip_directory` (src/main.rs:975) and
`load_zip_directory_async` (src/main.rs:826): inside the archive `".."` points
at the cwd with its trailing segment stripped; at the archive root it points
at the filesystem directory containing the archive, and is omitted when the
archive path has no parent. -/
def zipParentEntries (ap : FsPath) (cwd : Bytes) : List DirEntry :=
  if cwd ≠ [] then
    [⟨dotdotName, true, .Zip ap (zipParentOf cwd)⟩]
  else if hasParent ap then
    [⟨dotdotName, true, .Fs (parentPath ap)⟩]
  else []

/-- Source `read_zip_directory` (src/main.rs:942) on the success path:
`members` is the archive's member name list in index order; archive-open and
index errors abort the whole read and are outside this model. -/
def read_zip_directory (ap : FsPath) (members : List Bytes) (cwd : Bytes) :
    List DirEntry :=
  let sc := zipScan (zipScanPfx cwd) members
  zipParentEntries ap cwd
    ++ sortEntriesByName (sc.1.map (fun d => ⟨d, true, .Zip ap (zipInnerPath cwd d)⟩))
    ++ sortEntriesByName (sc.2.map (fun f => ⟨f, false, .Zip ap (zipInnerPath cwd f)⟩))

/-- Fuel-driven chunking helper; `fuel` bounds the recursion depth and is
instantiated with the list length. -/
def chunkedAux {α : Type} : Nat → Nat → List α → List (List α)
  | 0, _, _ => []
  | _ + 1, _, [] => []
  | fuel + 1, n, x :: xs => (x :: xs).take n :: chunkedAux fuel n ((x :: xs).drop n)

/-- The chunked sends of the streaming loops (src/main.rs:759, src/main.rs:869):
full chunks of `n` followed by a nonempty remainder; no empty batch is ever
sent. -/
def chunked {α : Type} (n : Nat) (l : List α) : List (List α) :=
  chunkedAux l.length n l

/-- The instant placeholder list of `load_fs_directory_async`
(src/main.rs:704): a `".."` entry when the directory has a parent. -/
def fsInitialEntries (p : FsPath) : List DirEntry :=
  if hasParent p then [fsParentEntry p] else []

/-- The synchronous snapshot page of `load_fs_directory_async`
(src/main.rs:718): the first up-to-128 results of the live `read_dir`
cursor, unsorted. -/
def snapshotPage (p : FsPath) (l : List RawEntry) : List DirEntry :=
  (l.take 128).map (mkFsEntry p)

/-- The batches the background thread of `load_fs_directory_async` sends
(src/main.rs:742 and the fallback at src/main.rs:771): it opens the directory
again with a fresh `fs::read_dir` call — its result is the oracle `r2`,
independent of the snapshot's read — and streams every entry of that second
enumeration in chunks of 500.  On failure of the second read nothing is
sent. -/
def fsBackgroundBatches (p : FsPath) (r2 : Option (List RawEntry)) :
    List (List DirEntry) :=
  match r2 with
  | some l => chunked 500 (l.map (mkFsEntry p))
  | none => []

/-- Every batch one filesystem navigation places on its channel, in send
order: the snapshot page of the first `read_dir` (when that read succeeded and
the page is nonempty) followed by the background batches of the second
`read_dir`.  `r1` is the first read's result, `r2` the second's. -/
def fsEmittedBatches (p : FsPath) (r1 r2 : Option (List RawEntry)) :
    List (List DirEntry) :=
  match r1 with
  | some l => (if l.take 128 = [] then [] else [snapshotPage p l]) ++ fsBackgroundBatches p r2
  | none => fsBackgroundBatches p r2

/-- The fully assembled entry list of one filesystem navigation: the instant
placeholder followed by every emitted batch in order. -/
def fsAssembled (p : FsPath) (r1 r2 : Option (List RawEntry)) : List DirEntry :=
  fsInitialEntries p ++ (fsEmittedBatches p r1 r2).flatten

/-- The instant placeholder list of `load_zip_directory_async`
(src/main.rs:826): identical to the reader's parent block. -/
def zipInitialEntries (ap : FsPath) (cwd : Bytes) : List DirEntry :=
  zipParentEntries ap cwd

/-- Every batch one archive navigation places on its channel
(src/main.rs:856): on read success the reader's full result, its leading
`".."` removed, is sent as a first page of up to 128 entries plus background
chunks of 500; on read failure nothing at all is sent. -/
def zipEmittedBatches (ap : FsPath) (cwd : Bytes) (res : Option (List Bytes)) :
    List (List DirEntry) :=
  match res with
  | none => []
  | some members =>
    let all := read_zip_directory ap members cwd
    let all := match all with
      | e :: rest => if e.name = dotdotName then rest else all
      | [] => all
    (if all.take 128 = [] then [] else [all.take 128]) ++ chunked 500 (all.drop 128)

/-- The fully assembled entry list of one archive navigation. -/
def zipAssembled (ap : FsPath) (cwd : Bytes) (res : Option (List Bytes)) :
    List DirEntry :=
  zipInitialEntries ap cwd ++ (zipEmittedBatches ap cwd res).flatten

/-- The visible state of one `mpsc::Receiver<Vec<DirEntry>>`: the batches not
yet received, in arrival order, and whether every sender has been dropped.
`try_recv` yields data while any batch is pending, `Empty` on an open empty
channel and `Disconnected` on a closed empty one. -/
structure QueueState where
  pending : List (List DirEntry)
  closed : Bool
deriving DecidableEq, Repr

/-- Result of a non-blocking `try_recv`. -/
inductive RecvResult
  | ok (batch : List DirEntry) (rest : QueueState)
  | empty
  | disconnected
deriving DecidableEq, Repr

/-- Rust `Receiver::try_recv` on the queue model. -/
def tryRecv (q : QueueState) : RecvResult :=
  match q.pending with
  | b :: rest => .ok b ⟨rest, q.closed⟩
  | [] => if q.closed then .disconnected else .empty

/-- Source `PanelMode` (src/main.rs:510). -/
inductive PanelMode
  | Fs
  | Zip (archive_path : FsPath) (cwd : Bytes)
deriving DecidableEq, Repr

/-- Source `PanelState` (src/main.rs:518); the gpui scroll handles, pure
rendering state, are omitted. -/
structure Panel where
  current_path : FsPath
  mode : PanelMode
  selected_index : Nat
  entries : List DirEntry
  entries_rx : Option QueueState
  prefer_select_name : Option Bytes
  top_index : Nat
deriving DecidableEq, Repr

/-- The keep-cursor-in-view adjustment used by `select_entry`
(src/main.rs:1068), the pump's prefer-restore (src/main.rs:1673) and the
per-render clamp (src/main.rs:1698): scroll only when the selection left the
window of `rows` rows. -/
def windowAdjust (rows : Nat) (pan : Panel) : Panel :=
  if pan.selected_index < pan.top_index then
    { pan with top_index := pan.selected_index }
  else if pan.selected_index ≥ pan.top_index + rows then
    { pan with top_index := pan.selected_index + 1 - rows }
  else pan

/-- Source `select_entry` (src/main.rs:1062): in-bounds indices move the
selection and keep it visible; out-of-range indices are logged and ignored.
`rows` is the `compute_window_rows` measurement for this call (always at
least 1 in the source).  The preview refresh side effect is outside the panel
state. -/
def select_entry (rows i : Nat) (pan : Panel) : Panel :=
  if i < pan.entries.length then
    windowAdjust rows { pan with selected_index := i }
  else pan

/-- The first pump block of `render_panel` (src/main.rs:1660): take the
receiver; on data append it and resolve a pending `prefer_select_name`
request — the request is removed by `Option::take` before the search, so it is
dropped even when no name matches; the receiver is not reassigned in this
arm, so it is dropped with the rest of the stream.  On `Empty` the receiver is
put back; on `Disconnected` it is dropped. -/
def pumpBlock1 (rows : Nat) (pan : Panel) : Panel :=
  match pan.entries_rx with
  | none => pan
  | some q =>
    match tryRecv q with
    | .ok b _ =>
      let pan1 := { pan with entries := pan.entries ++ b, entries_rx := none }
      match pan1.prefer_select_name with
      | some pref =>
        let pan2 := { pan1 with prefer_select_name := none }
        match pan2.entries.findIdx? (fun e => e.name == pref) with
        | some idx => windowAdjust rows { pan2 with selected_index := idx }
        | none => pan2
      | none => pan1
    | .empty => { pan with entries_rx := some q }
    | .disconnected => { pan with entries_rx := none }

/-- The `top_index` range clamp of `render_panel` (src/main.rs:1704): cap it
at `entries.len().saturating_sub(window_rows.max(1))`. -/
def clampTop (rows : Nat) (pan : Panel) : Panel :=
  if pan.top_index > pan.entries.length - max rows 1 then
    { pan with top_index := pan.entries.length - max rows 1 }
  else pan

/-- The selection range clamp of `render_panel` (src/main.rs:1710): pull an
out-of-range selection back to the last entry of a non-empty list. -/
def clampSel (pan : Panel) : Panel :=
  if pan.entries ≠ [] ∧ pan.selected_index ≥ pan.entries.length then
    { pan with selected_index := pan.entries.length - 1 }
  else pan

/-- The per-render clamp of `render_panel` (src/main.rs:1696): keep the
selection in view, clamp `top_index` into range, then clamp the selection,
in source order. -/
def clampBlock (rows : Nat) (pan : Panel) : Panel :=
  clampSel (clampTop rows (windowAdjust rows pan))

/-- The second pump block of `render_panel` (src/main.rs:1714): one more
non-blocking receive; on data append and keep the receiver, on `Empty` keep
it, on `Disconnected` drop it.  No prefer-restore here. -/
def pumpBlock2 (pan : Panel) : Panel :=
  match pan.entries_rx with
  | none => pan
  | some q =>
    match tryRecv q with
    | .ok b rest => { pan with entries := pan.entries ++ b, entries_rx := some rest }
    | .empty => pan
    | .disconnected => { pan with entries_rx := none }

/-- One per-tick pump of a panel, exactly the panel-state mutations of
`render_panel` (src/main.rs:1660 through src/main.rs:1731) in source order. -/
def pumpTick (rows : Nat) (pan : Panel) : Panel :=
  pumpBlock2 (clampBlock rows (pumpBlock1 rows pan))

/-- The scroll-wheel handler of `render_panel` (src/main.rs:1863): move
`top_index` by the signed row delta (the source maps wheel events to plus or
minus 3 rows), clamp it into range, and leave the selection untouched. -/
def on_scroll (rows : Nat) (d : Int) (pan : Panel) : Panel :=
  let t : Nat :=
    if d > 0 then pan.top_index + d.toNat else pan.top_index - (-d).toNat
  let maxTop := pan.entries.length - max rows 1
  { pan with top_index := if t > maxTop then maxTop else t }

/-- One user-visible panel operation, carrying the `compute_window_rows`
measurement of its moment (the source recomputes it at every call; it is
always at least 1). -/
inductive PanelOp
  | sel (rows i : Nat)
  | tick (rows : Nat)
  | scroll (rows : Nat) (d : Int)
deriving DecidableEq, Repr

/-- Apply one panel operation. -/
def applyOp : PanelOp → Panel → Panel
  | .sel rows i, pan => select_entry rows i pan
  | .tick rows, pan => pumpTick rows pan
  | .scroll rows d, pan => on_scroll rows d pan

/-- Apply a sequence of panel operations, oldest first. -/
def applyOps (ops : List PanelOp) (pan : Panel) : Panel :=
  ops.foldl (fun pan op => applyOp op pan) pan

/-- The selection-bound invariant of reachable panels: an empty panel keeps
the selection at 0, a populated one keeps it in range. -/
def selInv (pan : Panel) : Prop :=
  (pan.entries.length = 0 ∧ pan.selected_index = 0) ∨
    pan.selected_index < pan.entries.length

/-- The cursor-visibility invariant for a window of `rows` rows: on a
non-empty panel, `topIndex ≤ selectedIndex ≤ topIndex + rows - 1`. -/
def windowInv (rows : Nat) (pan : Panel) : Prop :=
  pan.entries.length = 0 ∨
    (pan.top_index ≤ pan.selected_index ∧
      pan.selected_index < pan.top_index + rows)

instance (pan : Panel) : Decidable (selInv pan) := by
  unfold selInv; infer_instance

instance (rows : Nat) (pan : Panel) : Decidable (windowInv rows pan) := by
  unfold windowInv; infer_instance

/-- Rust `str::rsplit_once(c)` generalised to any separator byte. -/
def rsplitOnceAt (c : Nat) : Bytes → Option (Bytes × Bytes)
  | [] => none
  | x :: xs =>
    match rsplitOnceAt c xs with
    | some (p, q) => some (x :: p, q)
    | none => if x = c then some ([], xs) else none

/-- Rust `Path::extension` on the component model: the part of the last
component after its last `.`, provided a nonempty stem precedes it. -/
def extOf (n : Bytes) : Option Bytes :=
  match rsplitOnceAt 46 n with
  | some (stem, e) => if stem = [] then none else some e
  | none => none

/-- Rust `u8::to_ascii_lowercase`. -/
def lowerByte (b : Nat) : Nat :=
  if 65 ≤ b ∧ b ≤ 90 then b + 32 else b

/-- Source `is_zip_path` (src/main.rs:1364): extension compares
case-insensitively equal to `"zip"`. -/
def is_zip_path (p : FsPath) : Bool :=
  match p.getLast? with
  | some n =>
    match extOf n with
    | some e => e.map lowerByte = [122, 105, 112]
    | none => false
  | none => false

/-- Rust `Path::file_name` on the component model. -/
def fileName (p : FsPath) : Option Bytes := p.getLast?

/-- The last slash-separated segment of a trimmed cwd
(src/main.rs:1131): `rsplit('/').next()` always yields a value, the whole
string when no slash occurs. -/
def lastSegAfterSlash (s : Bytes) : Bytes :=
  match rsplitOnceSlash s with
  | some (_, q) => q
  | none => s

/-- The navigation engine state the claims touch: the active panel and the two
selection-memory maps of `FileSystemModel` (src/main.rs:548).  The inactive
panel, preview payload, copy-job sink and theme state are unaffected by the
modelled commands.  The memory maps are association lists whose latest binding
wins, reproducing `HashMap::insert`. -/
structure Model where
  pan : Panel
  fs_last_selected_name : List (FsPath × Bytes)
  zip_last_selected_name : List ((FsPath × Bytes) × Bytes)
deriving DecidableEq, Repr

/-- Rust `HashMap::get` on the association-list model. -/
def memLookupFs (m : List (FsPath × Bytes)) (k : FsPath) : Option Bytes :=
  (m.find? (fun kv => kv.1 == k)).map (fun kv => kv.2)

/-- Rust `HashMap::get` for the zip memory map. -/
def memLookupZip (m : List ((FsPath × Bytes) × Bytes)) (k : FsPath × Bytes) :
    Option Bytes :=
  (m.find? (fun kv => kv.1 == k)).map (fun kv => kv.2)

/-- Source `load_fs_directory_async` (src/main.rs:696) as it acts on the
target panel: place the instant placeholder, reset cursor and scroll, hang the
navigation's channel on the panel and record the remembered-or-hinted name to
restore.  `fsRead` is the filesystem oracle; the directory is read twice (the
snapshot read and the background thread's fresh read) and the oracle answers
both identically, i.e. the directory is stable during the navigation.  The
queue is modelled at enumerator completion: every batch pending, channel
closed. -/
def load_fs_directory_async (fsRead : FsPath → Option (List RawEntry))
    (path : FsPath) (prefer_name : Option Bytes) (m : Model) : Model :=
  let r := fsRead path
  let remembered := (prefer_name.or (memLookupFs m.fs_last_selected_name path))
  { m with
    pan :=
      { current_path := path
        mode := .Fs
        entries := fsInitialEntries path
        selected_index := 0
        top_index := 0
        entries_rx := some ⟨fsEmittedBatches path r r, true⟩
        prefer_select_name := remembered } }

/-- Source `load_zip_directory_async` (src/main.rs:817), analogously;
`zipRead` answers with the archive's member list. -/
def load_zip_directory_async (zipRead : FsPath → Option (List Bytes))
    (ap : FsPath) (cwd : Bytes) (prefer_name : Option Bytes) (m : Model) : Model :=
  let remembered :=
    (prefer_name.or (memLookupZip m.zip_last_selected_name (ap, cwd)))
  { m with
    pan :=
      { current_path := ap
        mode := .Zip ap cwd
        entries := zipInitialEntries ap cwd
        selected_index := 0
        top_index := 0
        entries_rx := some ⟨zipEmittedBatches ap cwd (zipRead ap), true⟩
        prefer_select_name := remembered } }

/-- Source `store_current_selection_memory` (src/main.rs:1169): record the
currently selected entry's name under the panel's location key.  The source
indexes `entries[selected_index]`; reachable states keep it in range. -/
def store_current_selection_memory (m : Model) : Model :=
  if m.pan.entries = [] then m
  else
    let selName := (m.pan.entries.getD m.pan.selected_index default).name
    match m.pan.mode with
    | .Fs =>
      { m with fs_last_selected_name := (m.pan.current_path, selName) :: m.fs_last_selected_name }
    | .Zip ap cwd =>
      { m with zip_last_selected_name := ((ap, cwd), selName) :: m.zip_last_selected_name }

/-- Source `select_entry_by_name` (src/main.rs:1196): move the selection to
the first entry of that name, without any scroll adjustment; no-op when the
name is absent. -/
def select_entry_by_name (name : Bytes) (m : Model) : Model :=
  match m.pan.entries.findIdx? (fun e => e.name == name) with
  | some idx => { m with pan := { m.pan with selected_index := idx } }
  | none => m

/-- Source `open_selected` (src/main.rs:1081) on the active panel: record the
selection memory, then navigate according to the selected entry.  Leaving via
`".."` computes a restore hint from the location being left; entering a
remembered location applies the remembered name as an immediate fallback.
Plain files (the preview path) and zip files cause no navigation. -/
def open_selected (fsRead : FsPath → Option (List RawEntry))
    (zipRead : FsPath → Option (List Bytes)) (m : Model) : Model :=
  if m.pan.entries = [] then m
  else
    let entry := m.pan.entries.getD m.pan.selected_index default
    let current_path := m.pan.current_path
    let zip_cwd := match m.pan.mode with
      | .Zip _ cwd => some cwd
      | _ => none
    let m := store_current_selection_memory m
    match entry.location with
    | .Fs path =>
      if entry.is_dir then
        let prefer_name :=
          if entry.name = dotdotName then fileName current_path else none
        let m1 := load_fs_directory_async fsRead path prefer_name m
        if entry.name ≠ dotdotName then
          match memLookupFs m1.fs_last_selected_name path with
          | some name => select_entry_by_name name m1
          | none => m1
        else m1
      else if is_zip_path path then
        load_zip_directory_async zipRead path [] none m
      else m
    | .Zip ap inner =>
      if entry.is_dir then
        let prefer_name :=
          if entry.name = dotdotName then
            zip_cwd.map (fun cwd => lastSegAfterSlash (trimEndSlashes cwd))
          else none
        let m1 := load_zip_directory_async zipRead ap inner prefer_name m
        if entry.name ≠ dotdotName then
          match memLookupZip m1.zip_last_selected_name (ap, inner) with
          | some name => select_entry_by_name name m1
          | none => m1
        else m1
      else m

/-- One per-tick pump of the model's panel. -/
def pumpModel (rows : Nat) (m : Model) : Model :=
  { m with pan := pumpTick rows m.pan }

/-- Model-level selection command, as dispatched by the key handler. -/
def selectModel (rows i : Nat) (m : Model) : Model :=
  { m with pan := select_entry rows i m.pan }

/-- Pump every tick until the panel's stream is gone (the quiescent state all
claims about completed streaming refer to); `fuel` bounds the tick count. -/
def pumpUntilQuiet (rows : Nat) : Nat → Model → Model
  | 0, m => m
  | f + 1, m =>
    if m.pan.entries_rx = none then m
    else pumpUntilQuiet rows f (pumpModel rows m)

/-- One byte counted as printable by `is_probably_text` (src/main.rs:1473):
tab, LF, CR or visible ASCII 0x20 through 0x7E. -/
def isPrintableByte (b : Nat) : Bool :=
  b == 9 || b == 10 || b == 13 || (32 ≤ b && b ≤ 126)

/-- Printable-byte count of a buffer (the counting loop at
src/main.rs:1471). -/
def printableCount (bytes : List Nat) : Nat :=
  (bytes.filter isPrintableByte).length

/-- Source `is_probably_text` (src/main.rs:1462): empty buffers are text; any
NUL byte makes the buffer binary; otherwise the buffer is text exactly when
the printable ratio exceeds 0.85.  The source computes
`printable as f32 / bytes.len().max(1) as f32 > 0.85_f32`; over the inputs the
program can produce (at most 64 KiB, `read` bounded at src/main.rs:1214) the
`f32` comparison coincides exactly with the rational test
`20 * printable > 17 * len` used here: counts below 2 to the 24th are exact in
`f32`, the quotient rounds to nearest, `0.85_f32` is the rounding of 17 / 20,
and for denominators up to 65536 no quotient falls inside the rounding gap. -/
def is_probably_text (bytes : List Nat) : Bool :=
  if bytes = [] then true
  else if bytes.any (fun b => b == 0) then false
  else decide (20 * printableCount bytes > 17 * (max bytes.length 1))

/-- Which rendering path a previewed buffer takes. -/
inductive PreviewRoute
  | text
  | hexdump
deriving DecidableEq, Repr

/-- The classification branch of `update_preview_for_current_selection`
(src/main.rs:1222): text buffers are decoded lossily, all others go through
`hexdump`. -/
def preview_route (bytes : List Nat) : PreviewRoute :=
  if is_probably_text bytes then .text else .hexdump

/-- The directories-first reading of a listing order: no directory follows a
file, and names ascend byte-wise inside each of the two groups. -/
def dirsFirstRel (a b : DirEntry) : Prop :=
  (b.is_dir = true → a.is_dir = true) ∧
    (a.is_dir = b.is_dir → bytesLe a.name b.name = true)

/-- The spec's scenario archive member list: `"src/main.txt"`,
`"src/lib/util.txt"`, `"readme.md"` as byte strings. -/
def scenarioMembers : List Bytes :=
  [[115, 114, 99, 47, 109, 97, 105, 110, 46, 116, 120, 116],
   [115, 114, 99, 47, 108, 105, 98, 47, 117, 116, 105, 108, 46, 116, 120, 116],
   [114, 101, 97, 100, 109, 101, 46, 109, 100]]

/-- A 20-entry panel in a pristine state, for the scroll scenario. -/
def scrollDemoPanel : Panel :=
  ⟨[], .Fs, 0, List.replicate 20 default, none, none, 0⟩

/-- A panel holding a one-batch stream and a pending restore request for the
name `"x"`. -/
def preferDemoPanel : Panel :=
  ⟨[], .Fs, 0, [], some ⟨[[⟨[120], false, .Fs []⟩]], true⟩, some [120], 0⟩

/-- The filesystem oracle of the round-trip scenario: directory `/d` holds the
file `"x"`, the root holds the directory `"d"`. -/
def fsReadDemo : FsPath → Option (List RawEntry) :=
  fun p =>
    if p = [[100]] then some [⟨[120], false⟩]
    else if p = [] then some [⟨[100], true⟩]
    else none

/-- The archive oracle of the round-trip scenario: no archive is involved. -/
def zipReadDemo : FsPath → Option (List Bytes) := fun _ => none

/-- A fresh model before the first navigation. -/
def blankModel : Model :=
  ⟨⟨[[100]], .Fs, 0, [], none, none, 0⟩, [], []⟩

/-- The round-trip start state: `/d` loaded and fully pumped, the file `"x"`
selected. -/
def demoStart : Model :=
  selectModel 10 1
    (pumpUntilQuiet 10 5 (load_fs_directory_async fsReadDemo [[100]] none blankModel))

/-- The round-trip end state: move the cursor to `".."`, open it (navigating
to the parent), pump to quiescence, open the re-selected `"d"` (navigating
back into `/d`), and pump to quiescence again. -/
def demoFinal : Model :=
  pumpUntilQuiet 10 5
    (open_selected fsReadDemo zipReadDemo
      (pumpUntilQuiet 10 5
        (open_selected fsReadDemo zipReadDemo
          (selectModel 10 0 demoStart))))

/-! ## Claim theorems -/

theorem bytesLe_refl (a : Bytes) : bytesLe a a = true := by
  induction a with
  | nil => rfl
  | cons x xs ih => simp [bytesLe, ih]

theorem bytesLe_total (a b : Bytes) : bytesLe a b = true ∨ bytesLe b a = true := by
  induction a generalizing b with
  | nil => exact .inl rfl
  | cons x xs ih =>
    cases b with
    | nil => exact .inr rfl
    | cons y ys =>
      rcases Nat.lt_trichotomy x y with h | h | h
      · exact .inl (by simp [bytesLe, h])
      · subst h
        rcases ih ys with h2 | h2
        · exact .inl (by simp [bytesLe, h2])
        · exact .inr (by simp [bytesLe, h2])
      · exact .inr (by simp [bytesLe, h])

theorem bytesLe_cons_iff {a b : Nat} {as bs : Bytes} :
    bytesLe (a :: as) (b :: bs) = true ↔ a < b ∨ (a = b ∧ bytesLe as bs = true) := by
  simp only [bytesLe]
  by_cases h1 : a < b
  · simp [h1]
  · by_cases h2 : b < a
    · simp [h1, h2]
      omega
    · have : a = b := by omega
      simp [h1, h2, this]

theorem bytesLe_trans {a b c : Bytes} (h1 : bytesLe a b = true)
    (h2 : bytesLe b c = true) : bytesLe a c = true := by
  induction a generalizing b c with
  | nil => rfl
  | cons x xs ih =>
    cases b with
    | nil => simp [bytesLe] at h1
    | cons y ys =>
      cases c with
      | nil => simp [bytesLe] at h2
      | cons z zs =>
        rw [bytesLe_cons_iff] at h1 h2 ⊢
        rcases h1 with h1 | ⟨h1, h1t⟩
        · rcases h2 with h2 | ⟨h2, _⟩
          · exact .inl (Nat.lt_trans h1 h2)
          · exact .inl (h2 ▸ h1)
        · rcases h2 with h2 | ⟨h2, h2t⟩
          · exact .inl (h1 ▸ h2)
          · exact .inr ⟨h1.trans h2, ih h1t h2t⟩

instance : IsTotal DirEntry entryRel := by
  constructor
  intro a b
  unfold entryRel entryLe
  rcases ha : a.is_dir <;> rcases hb : b.is_dir <;>
    rcases bytesLe_total a.name b.name with h | h <;> simp [h]

instance : IsTrans DirEntry entryRel := by
  constructor
  intro a b c h1 h2
  unfold entryRel entryLe at h1 h2 ⊢
  rcases ha : a.is_dir <;> rcases hb : b.is_dir <;> rcases hc : c.is_dir <;>
    simp [ha, hb, hc] at h1 h2 ⊢ <;>
    exact bytesLe_trans h1 h2

instance : IsTotal DirEntry nameRel := by
  constructor
  intro a b
  exact bytesLe_total a.name b.name

instance : IsTrans DirEntry nameRel := by
  constructor
  intro a b c h1 h2
  exact bytesLe_trans h1 h2

theorem chunkedAux_join {α : Type} (fuel n : Nat) (l : List α)
    (hf : l.length ≤ fuel) (hn : 1 ≤ n) : (chunkedAux fuel n l).flatten = l := by
  induction fuel generalizing l with
  | zero =>
    cases l with
    | nil => rfl
    | cons x xs => simp at hf
  | succ f ih =>
    cases l with
    | nil => rfl
    | cons x xs =>
      have hlen : ((x :: xs).drop n).length ≤ f := by
        simp only [List.length_drop, List.length_cons] at *
        omega
      simp only [chunkedAux, List.flatten]
      rw [ih _ hlen, List.take_append_drop]

/-- Joining the chunks restores the original list. -/
theorem chunked_join {α : Type} (n : Nat) (l : List α) (hn : 1 ≤ n) :
    (chunked n l).flatten = l :=
  chunkedAux_join l.length n l (Nat.le_refl _) hn


/-- C10: the empty byte buffer is classified as text — `is_probably_text`
returns `true` for zero-length input before any ratio is computed, so a
zero-length preview takes the text path even though the empty buffer's
printable ratio is not greater than 0.85. -/
theorem empty_buffer_is_text :
    is_probably_text [] = true ∧ preview_route [] = PreviewRoute.text ∧
      decide (20 * printableCount [] > 17 * max (List.length ([] : List Nat)) 1) = false := by
  decide

/-- C8: a nonempty previewed buffer (the source reads at most 64 KiB, the
domain on which the embedded integer ratio test coincides with the source's
f32 test) is routed to the hex dump exactly when it contains a NUL byte or
its printable ratio is at most 0.85, and to the text path exactly when it has
no NUL byte and the ratio strictly exceeds 0.85. -/
theorem preview_route_threshold (bytes : List Nat) (h1 : bytes ≠ [])
    (h2 : bytes.length ≤ 65536) :
    (preview_route bytes = PreviewRoute.hexdump ↔
      (0 ∈ bytes ∨ 20 * printableCount bytes ≤ 17 * bytes.length)) ∧
    (preview_route bytes = PreviewRoute.text ↔
      (0 ∉ bytes ∧ 17 * bytes.length < 20 * printableCount bytes)) := by
  have hpos : 0 < bytes.length := List.length_pos.mpr h1
  have hmax : max bytes.length 1 = bytes.length := by omega
  by_cases hz : 0 ∈ bytes
  · have ha : bytes.any (fun b => b == 0) = true := by
      rw [List.any_eq_true]
      exact ⟨0, hz, by simp⟩
    constructor
    · simp [preview_route, is_probably_text, h1, ha, hz]
    · simp [preview_route, is_probably_text, h1, ha, hz]
  · have ha : bytes.any (fun b => b == 0) = false := by
      rw [Bool.eq_false_iff]
      intro hc
      rw [List.any_eq_true] at hc
      obtain ⟨b, hb, hb0⟩ := hc
      simp at hb0
      exact hz (hb0 ▸ hb)
    by_cases hr : 20 * printableCount bytes > 17 * bytes.length
    · constructor
      · simp [preview_route, is_probably_text, h1, ha, hmax, hz]
        try omega
      · simp [preview_route, is_probably_text, h1, ha, hmax, hz]
        try omega
    · constructor
      · simp [preview_route, is_probably_text, h1, ha, hmax, hz]
        try omega
      · simp [preview_route, is_probably_text, h1, ha, hmax, hz]
        try omega

/-- Witness for the preview threshold: a 100-byte buffer with 86 printable
bytes (ratio exactly 0.86) and no NUL takes the text path. -/
theorem preview_route_threshold_witness :
    preview_route (List.replicate 86 97 ++ List.replicate 14 255) =
      PreviewRoute.text :=
  ((preview_route_threshold (List.replicate 86 97 ++ List.replicate 14 255)
      (by decide) (by decide)).2).mpr (by decide)

/-- C7: the `".."` entry of `read_zip_directory` points inside the archive at
the cwd with its trailing segment stripped when the cwd is non-root, and
crosses the backend boundary to the archive file's containing filesystem
directory when the cwd is the archive root. -/
theorem zip_parent_targets (ap : FsPath) (members : List Bytes) (cwd : Bytes) :
    (cwd ≠ [] →
      (read_zip_directory ap members cwd).head? =
        some ⟨dotdotName, true, EntryLocation.Zip ap (zipParentOf cwd)⟩) ∧
    (cwd = [] → hasParent ap = true →
      (read_zip_directory ap members cwd).head? =
        some ⟨dotdotName, true, EntryLocation.Fs (parentPath ap)⟩) := by
  constructor
  · intro h
    simp [read_zip_directory, zipParentEntries, h]
  · intro h hp
    subst h
    simp [read_zip_directory, zipParentEntries, hp]

/-- Witness for the `".."` targets, at a one-component archive path with a
non-root cwd and with the root cwd. -/
theorem zip_parent_targets_witness :
    (read_zip_directory [[97]] [] [115]).head? =
      some ⟨dotdotName, true, EntryLocation.Zip [[97]] (zipParentOf [115])⟩ ∧
    (read_zip_directory [[97]] [] []).head? =
      some ⟨dotdotName, true, EntryLocation.Fs (parentPath [[97]])⟩ :=
  ⟨(zip_parent_targets [[97]] [] [115]).1 (by decide),
   (zip_parent_targets [[97]] [] []).2 rfl (by decide)⟩

/-- C1 (refuted): for the directory with one file `"a"`, the assembled
filesystem navigation list — placeholder, snapshot page, then every streamed
batch in order, with both `read_dir` calls seeing the same stable directory —
repeats the file, because the background thread re-enumerates the directory
from the start instead of resuming the snapshot's cursor, and therefore
differs from the reader's duplicate-free result. -/
theorem fs_stream_duplicates_first_page :
    fsAssembled [[100]] (some [⟨[97], false⟩]) (some [⟨[97], false⟩]) =
      [fsParentEntry [[100]], mkFsEntry [[100]] ⟨[97], false⟩,
        mkFsEntry [[100]] ⟨[97], false⟩] ∧
    read_fs_directory [[100]] [⟨[97], false⟩] =
      [fsParentEntry [[100]], mkFsEntry [[100]] ⟨[97], false⟩] ∧
    fsAssembled [[100]] (some [⟨[97], false⟩]) (some [⟨[97], false⟩]) ≠
      read_fs_directory [[100]] [⟨[97], false⟩] := by
  decide

/-- C4 counterexample: initial read failed, background retry succeeded —
batches are produced beyond the placeholder row, so neither "no further
batches are ever produced" nor "never retried automatically" holds of the
filesystem loader. -/
theorem failed_read_retry_produces_batches :
    fsEmittedBatches [[100]] none (some [⟨[97], false⟩]) ≠ [] ∧
    fsAssembled [[100]] none (some [⟨[97], false⟩]) =
      [fsParentEntry [[100]], mkFsEntry [[100]] ⟨[97], false⟩] := by
  decide

/-- C4 (amended): when the initial archive read fails no batch is ever
produced and the panel keeps exactly its placeholder rows; when the initial
filesystem read fails the background task retries the read once, and only if
that second read also fails is no batch produced, the panel again keeping
exactly its placeholder rows. -/
theorem failed_reads_keep_placeholder (p ap : FsPath) (cwd : Bytes) :
    fsEmittedBatches p none none = [] ∧
    fsAssembled p none none = fsInitialEntries p ∧
    zipEmittedBatches ap cwd none = [] ∧
    zipAssembled ap cwd none = zipInitialEntries ap cwd := by
  refine ⟨rfl, ?_, rfl, ?_⟩
  · simp [fsAssembled, fsEmittedBatches, fsBackgroundBatches]
  · simp [zipAssembled, zipEmittedBatches]

/-- The sort of `read_fs_directory` permutes its input. -/
theorem sortEntries_perm (l : List DirEntry) : (sortEntries l).Perm l :=
  List.perm_insertionSort entryRel l

/-- The sort of `read_fs_directory` sorts by its comparator. -/
theorem sortEntries_sorted (l : List DirEntry) :
    List.Sorted entryRel (sortEntries l) :=
  List.sorted_insertionSort entryRel l

/-- The name sort of `read_zip_directory` permutes its input. -/
theorem sortEntriesByName_perm (l : List DirEntry) :
    (sortEntriesByName l).Perm l :=
  List.perm_insertionSort nameRel l

/-- The name sort of `read_zip_directory` sorts by name. -/
theorem sortEntriesByName_sorted (l : List DirEntry) :
    List.Sorted nameRel (sortEntriesByName l) :=
  List.sorted_insertionSort nameRel l

/-- The fs comparator implies the directories-first reading. -/
theorem entryRel_imp_dirsFirst (a b : DirEntry) (h : entryRel a b) :
    dirsFirstRel a b := by
  unfold entryRel entryLe at h
  unfold dirsFirstRel
  rcases ha : a.is_dir <;> rcases hb : b.is_dir <;> simp [ha, hb] at h ⊢ <;>
    try exact h

/-- The part of a reader result after its parent placeholder block. -/
theorem read_fs_directory_drop (p : FsPath) (l : List RawEntry) :
    (read_fs_directory p l).drop (if hasParent p then 1 else 0) =
      sortEntries (l.map (mkFsEntry p)) := by
  unfold read_fs_directory
  cases hp : hasParent p <;> simp [hp]

/-- C5: `read_fs_directory` contains `".."` iff the directory has a parent,
puts `".."` at index 0 when present, and after the placeholder lists exactly
the directory's entries (a permutation of the raw listing) ordered
directories-first and byte-wise alphabetically within each group.  The
hypothesis reflects the `fs::read_dir` contract that the raw listing never
contains the special name `".."`. -/
theorem read_fs_directory_spec (p : FsPath) (l : List RawEntry)
    (h : ∀ r ∈ l, r.name ≠ dotdotName) :
    (dotdotName ∈ (read_fs_directory p l).map DirEntry.name ↔ hasParent p = true) ∧
    (hasParent p = true → (read_fs_directory p l).head? = some (fsParentEntry p)) ∧
    ((read_fs_directory p l).drop (if hasParent p then 1 else 0)).Perm
      (l.map (mkFsEntry p)) ∧
    List.Pairwise dirsFirstRel
      ((read_fs_directory p l).drop (if hasParent p then 1 else 0)) := by
  have hperm : (sortEntries (l.map (mkFsEntry p))).Perm (l.map (mkFsEntry p)) :=
    sortEntries_perm _
  have hnodot : dotdotName ∉ (sortEntries (l.map (mkFsEntry p))).map DirEntry.name := by
    intro hc
    rw [List.mem_map] at hc
    obtain ⟨e, he, hname⟩ := hc
    rw [hperm.mem_iff, List.mem_map] at he
    obtain ⟨r, hr, hmk⟩ := he
    exact h r hr (by rw [← hmk] at hname; exact hname)
  refine ⟨?_, ?_, ?_, ?_⟩
  · constructor
    · intro hmem
      cases hp : hasParent p with
      | true => rfl
      | false =>
        exfalso
        unfold read_fs_directory at hmem
        rw [hp] at hmem
        simp at hmem
        obtain ⟨e, he, hname⟩ := hmem
        exact hnodot (List.mem_map.mpr ⟨e, he, hname⟩)
    · intro hp
      unfold read_fs_directory
      rw [hp]
      simp [fsParentEntry]
  · intro hp
    unfold read_fs_directory
    rw [hp]
    simp
  · rw [read_fs_directory_drop]
    exact hperm
  · rw [read_fs_directory_drop]
    exact (sortEntries_sorted _).imp (fun {a b} hr => entryRel_imp_dirsFirst a b hr)

/-- Witness for the fs reader spec, on the spec's scenario directory with
files `"b.txt"`, `"A"`, `"a.txt"` and a parent: the placeholder sits at the
head and the tail is the byte-alphabetical file list. -/
theorem read_fs_directory_spec_witness :
    (read_fs_directory [[104]]
        [⟨[98, 46, 116, 120, 116], false⟩, ⟨[65], false⟩,
          ⟨[97, 46, 116, 120, 116], false⟩]).head? =
      some (fsParentEntry [[104]]) :=
  (read_fs_directory_spec [[104]]
      [⟨[98, 46, 116, 120, 116], false⟩, ⟨[65], false⟩,
        ⟨[97, 46, 116, 120, 116], false⟩]
      (by decide)).2.1 (by decide)

/-- Every entry of the parent block is named `".."`. -/
theorem zipParentEntries_name (ap : FsPath) (cwd : Bytes) :
    ∀ e ∈ zipParentEntries ap cwd, e.name = dotdotName := by
  intro e he
  unfold zipParentEntries at he
  split_ifs at he <;> simp at he <;> simp [he]

/-- `HashSet::insert` keeps the collected set duplicate free. -/
theorem insertUniq_nodup {x : Bytes} {l : List Bytes} (h : l.Nodup) :
    (insertUniq x l).Nodup := by
  unfold insertUniq
  split_ifs with hx
  · exact h
  · rw [List.nodup_append]
    exact ⟨h, List.nodup_singleton x, by simpa using hx⟩

/-- One scan step keeps the synthesized-directory set duplicate free. -/
theorem zipScanStep_nodup (pfx : Bytes) (acc : List Bytes × List Bytes)
    (m : Bytes) (h : acc.1.Nodup) : (zipScanStep pfx acc m).1.Nodup := by
  unfold zipScanStep
  split_ifs with h1 h2
  · exact h
  · split
    · exact insertUniq_nodup h
    · exact h
  · exact h

/-- The synthesized subdirectory names of a scan are duplicate free. -/
theorem zipScan_dirs_nodup (pfx : Bytes) (members : List Bytes) :
    (zipScan pfx members).1.Nodup := by
  suffices h : ∀ acc : List Bytes × List Bytes, acc.1.Nodup →
      (members.foldl (zipScanStep pfx) acc).1.Nodup from
    h ([], []) List.nodup_nil
  induction members with
  | nil => intro acc h; exact h
  | cons m ms ih =>
    intro acc h
    exact ih _ (zipScanStep_nodup pfx acc m h)

/-- The scan prefix is a prefix of every synthesized inner path. -/
theorem zipScanPfx_isPrefix (cwd d : Bytes) :
    List.IsPrefix (zipScanPfx cwd) (zipInnerPath cwd d) := by
  unfold zipScanPfx zipInnerPath
  by_cases h : cwd = []
  · simp [h]
  · simp only [h, if_neg h, ite_false]
    exact ⟨d, by simp⟩

/-- Membership in a sorted synthesized section comes from a scanned name. -/
theorem mem_zip_section {ap : FsPath} {cwd : Bytes} {flag : Bool}
    {xs : List Bytes} {e : DirEntry}
    (he : e ∈ sortEntriesByName (xs.map
      (fun d => (⟨d, flag, EntryLocation.Zip ap (zipInnerPath cwd d)⟩ : DirEntry)))) :
    ∃ d ∈ xs, e = ⟨d, flag, EntryLocation.Zip ap (zipInnerPath cwd d)⟩ := by
  unfold sortEntriesByName at he
  rw [List.mem_insertionSort, List.mem_map] at he
  obtain ⟨d, hd, hmk⟩ := he
  exact ⟨d, hd, hmk.symm⟩

/-- C6: `read_zip_directory` never emits an entry other than `".."` whose
inner path lacks the cwd prefix; the synthesized subdirectory names are
duplicate free across members sharing the prefix; and past the parent block
the listing is directories alphabetically then files alphabetically. -/
theorem read_zip_directory_spec (ap : FsPath) (members : List Bytes)
    (cwd : Bytes) :
    (∀ e ∈ read_zip_directory ap members cwd, e.name ≠ dotdotName →
      ∃ inner, e.location = EntryLocation.Zip ap inner ∧
        List.IsPrefix (zipScanPfx cwd) inner) ∧
    (((read_zip_directory ap members cwd).filter
        (fun e => e.is_dir && !(e.name == dotdotName))).map DirEntry.name).Nodup ∧
    List.Pairwise dirsFirstRel
      ((read_zip_directory ap members cwd).drop
        (zipParentEntries ap cwd).length) := by
  set ds := sortEntriesByName ((zipScan (zipScanPfx cwd) members).1.map
    (fun d => (⟨d, true, EntryLocation.Zip ap (zipInnerPath cwd d)⟩ : DirEntry)))
    with hds
  set fs := sortEntriesByName ((zipScan (zipScanPfx cwd) members).2.map
    (fun f => (⟨f, false, EntryLocation.Zip ap (zipInnerPath cwd f)⟩ : DirEntry)))
    with hfs
  have hread : read_zip_directory ap members cwd = zipParentEntries ap cwd ++ ds ++ fs := rfl
  have hmem_ds : ∀ e ∈ ds, ∃ d ∈ (zipScan (zipScanPfx cwd) members).1,
      e = ⟨d, true, EntryLocation.Zip ap (zipInnerPath cwd d)⟩ :=
    fun e he => mem_zip_section (hds ▸ he)
  have hmem_fs : ∀ e ∈ fs, ∃ d ∈ (zipScan (zipScanPfx cwd) members).2,
      e = ⟨d, false, EntryLocation.Zip ap (zipInnerPath cwd d)⟩ :=
    fun e he => mem_zip_section (hfs ▸ he)
  refine ⟨?_, ?_, ?_⟩
  · intro e he hne
    rw [hread, List.append_assoc, List.mem_append] at he
    rcases he with he | he
    · exact absurd (zipParentEntries_name ap cwd e he) hne
    · rw [List.mem_append] at he
      rcases he with he | he
      · obtain ⟨d, _, rfl⟩ := hmem_ds e he
        exact ⟨zipInnerPath cwd d, rfl, zipScanPfx_isPrefix cwd d⟩
      · obtain ⟨d, _, rfl⟩ := hmem_fs e he
        exact ⟨zipInnerPath cwd d, rfl, zipScanPfx_isPrefix cwd d⟩
  · rw [hread, List.filter_append, List.filter_append]
    have h1 : (zipParentEntries ap cwd).filter
        (fun e => e.is_dir && !(e.name == dotdotName)) = [] := by
      rw [List.filter_eq_nil_iff]
      intro e he
      rw [zipParentEntries_name ap cwd e he]
      simp
    have h2 : fs.filter (fun e => e.is_dir && !(e.name == dotdotName)) = [] := by
      rw [List.filter_eq_nil_iff]
      intro e he
      obtain ⟨d, _, rfl⟩ := hmem_fs e he
      simp
    rw [h1, h2, List.nil_append, List.append_nil]
    have hnames : (ds.map DirEntry.name).Perm
        ((zipScan (zipScanPfx cwd) members).1) := by
      have hp : ds.Perm ((zipScan (zipScanPfx cwd) members).1.map
          (fun d => (⟨d, true, EntryLocation.Zip ap (zipInnerPath cwd d)⟩ : DirEntry))) :=
        sortEntriesByName_perm _
      have hmapped := hp.map DirEntry.name
      rw [List.map_map] at hmapped
      have hfun : (DirEntry.name ∘ fun d =>
          ({ name := d, is_dir := true,
             location := EntryLocation.Zip ap (zipInnerPath cwd d) } : DirEntry)) = id := by
        funext d
        rfl
      rw [hfun, List.map_id] at hmapped
      exact hmapped
    have hnodup : (ds.map DirEntry.name).Nodup :=
      hnames.nodup_iff.mpr (zipScan_dirs_nodup _ _)
    exact List.Nodup.sublist
      (List.Sublist.map DirEntry.name (List.filter_sublist ds)) hnodup
  · rw [hread, List.append_assoc, List.drop_left]
    have hd_dir : ∀ e ∈ ds, e.is_dir = true := by
      intro e he
      obtain ⟨d, _, rfl⟩ := hmem_ds e he
      rfl
    have hf_dir : ∀ e ∈ fs, e.is_dir = false := by
      intro e he
      obtain ⟨d, _, rfl⟩ := hmem_fs e he
      rfl
    rw [List.pairwise_append]
    refine ⟨?_, ?_, ?_⟩
    · exact (sortEntriesByName_sorted _).imp_of_mem
        (fun {a b} ha hb hr =>
          ⟨fun _ => hd_dir a (hds ▸ ha), fun _ => hr⟩)
    · exact (sortEntriesByName_sorted _).imp_of_mem
        (fun {a b} ha hb hr =>
          ⟨fun hbd => absurd (hf_dir b (hfs ▸ hb) ▸ hbd) (by simp), fun _ => hr⟩)
    · intro a ha b hb
      refine ⟨fun hbd => absurd (hf_dir b hb ▸ hbd) (by simp), fun heq => ?_⟩
      rw [hd_dir a ha, hf_dir b hb] at heq
      cases heq

/-- Witness for the zip reader spec, on the spec's scenario archive at the
root: the synthesized `"src"` directory's inner path carries the root prefix,
and the dir-name list is duplicate free. -/
theorem read_zip_directory_spec_witness :
    (∃ inner,
      (⟨[115, 114, 99], true, EntryLocation.Zip [[97]] [115, 114, 99]⟩ :
          DirEntry).location = EntryLocation.Zip [[97]] inner ∧
        List.IsPrefix (zipScanPfx []) inner) ∧
    (((read_zip_directory [[97]] scenarioMembers []).filter
        (fun e => e.is_dir && !(e.name == dotdotName))).map DirEntry.name).Nodup :=
  ⟨(read_zip_directory_spec [[97]] scenarioMembers []).1
      ⟨[115, 114, 99], true, EntryLocation.Zip [[97]] [115, 114, 99]⟩
      (by decide) (by decide),
   (read_zip_directory_spec [[97]] scenarioMembers []).2.1⟩

/-! ## Panel invariant machinery -/

theorem findIdx?_lt_length {p : DirEntry → Bool} {l : List DirEntry} {i : Nat}
    (h : l.findIdx? p = some i) : i < l.length := by
  rcases List.findIdx?_eq_some_iff_getElem.mp h with ⟨hlt, -, -⟩
  exact hlt

@[simp] theorem windowAdjust_entries (rows : Nat) (pan : Panel) :
    (windowAdjust rows pan).entries = pan.entries := by
  unfold windowAdjust
  split_ifs <;> rfl

@[simp] theorem windowAdjust_selected (rows : Nat) (pan : Panel) :
    (windowAdjust rows pan).selected_index = pan.selected_index := by
  unfold windowAdjust
  split_ifs <;> rfl

@[simp] theorem windowAdjust_rx (rows : Nat) (pan : Panel) :
    (windowAdjust rows pan).entries_rx = pan.entries_rx := by
  unfold windowAdjust
  split_ifs <;> rfl

@[simp] theorem windowAdjust_prefer (rows : Nat) (pan : Panel) :
    (windowAdjust rows pan).prefer_select_name = pan.prefer_select_name := by
  unfold windowAdjust
  split_ifs <;> rfl

theorem windowAdjust_window (rows : Nat) (pan : Panel) (hr : 1 ≤ rows) :
    (windowAdjust rows pan).top_index ≤ pan.selected_index ∧
      pan.selected_index < (windowAdjust rows pan).top_index + rows := by
  unfold windowAdjust
  split_ifs with h1 h2 <;> (try dsimp only) <;> omega

@[simp] theorem clampTop_entries (rows : Nat) (pan : Panel) :
    (clampTop rows pan).entries = pan.entries := by
  unfold clampTop
  split_ifs <;> rfl

@[simp] theorem clampTop_selected (rows : Nat) (pan : Panel) :
    (clampTop rows pan).selected_index = pan.selected_index := by
  unfold clampTop
  split_ifs <;> rfl

@[simp] theorem clampTop_rx (rows : Nat) (pan : Panel) :
    (clampTop rows pan).entries_rx = pan.entries_rx := by
  unfold clampTop
  split_ifs <;> rfl

@[simp] theorem clampTop_prefer (rows : Nat) (pan : Panel) :
    (clampTop rows pan).prefer_select_name = pan.prefer_select_name := by
  unfold clampTop
  split_ifs <;> rfl

@[simp] theorem clampSel_entries (pan : Panel) :
    (clampSel pan).entries = pan.entries := by
  unfold clampSel
  split_ifs <;> rfl

@[simp] theorem clampSel_top (pan : Panel) :
    (clampSel pan).top_index = pan.top_index := by
  unfold clampSel
  split_ifs <;> rfl

@[simp] theorem clampSel_rx (pan : Panel) :
    (clampSel pan).entries_rx = pan.entries_rx := by
  unfold clampSel
  split_ifs <;> rfl

@[simp] theorem clampSel_prefer (pan : Panel) :
    (clampSel pan).prefer_select_name = pan.prefer_select_name := by
  unfold clampSel
  split_ifs <;> rfl

theorem clampSel_selected_of_selInv (pan : Panel) (h : selInv pan) :
    (clampSel pan).selected_index = pan.selected_index := by
  unfold clampSel
  rcases h with ⟨h1, h2⟩ | h1
  · rw [if_neg]
    rintro ⟨hne, -⟩
    exact hne (List.length_eq_zero.mp h1)
  · rw [if_neg]
    rintro ⟨-, hge⟩
    omega

/-- Under the selection-bound invariant the clamp stage only moves
`top_index`. -/
theorem clampBlock_fields (rows : Nat) (pan : Panel) (h : selInv pan) :
    (clampBlock rows pan).entries = pan.entries ∧
    (clampBlock rows pan).selected_index = pan.selected_index ∧
    (clampBlock rows pan).entries_rx = pan.entries_rx ∧
    (clampBlock rows pan).prefer_select_name = pan.prefer_select_name := by
  unfold clampBlock
  have hs : selInv (clampTop rows (windowAdjust rows pan)) := by
    unfold selInv at h ⊢
    simpa using h
  rw [clampSel_selected_of_selInv _ hs]
  simp

theorem selInv_clampBlock (rows : Nat) (pan : Panel) (h : selInv pan) :
    selInv (clampBlock rows pan) := by
  obtain ⟨he, hsel, -, -⟩ := clampBlock_fields rows pan h
  unfold selInv at h ⊢
  rw [he, hsel]
  exact h

/-- On a panel satisfying the selection bound, the render clamp establishes
the cursor-visibility invariant, and pins an empty panel at the origin. -/
theorem clampBlock_window (rows : Nat) (pan : Panel) (hr : 1 ≤ rows)
    (h : selInv pan) :
    ((clampBlock rows pan).entries.length = 0 ∧
      (clampBlock rows pan).top_index = 0 ∧
      (clampBlock rows pan).selected_index = 0) ∨
    ((clampBlock rows pan).top_index ≤ (clampBlock rows pan).selected_index ∧
      (clampBlock rows pan).selected_index <
        (clampBlock rows pan).top_index + rows) := by
  obtain ⟨he, hsel, -, -⟩ := clampBlock_fields rows pan h
  have hw := windowAdjust_window rows pan hr
  have htop : (clampBlock rows pan).top_index =
      (clampTop rows (windowAdjust rows pan)).top_index := by
    unfold clampBlock
    rw [clampSel_top]
  unfold clampTop at htop
  rw [he, hsel, htop]
  rcases h with ⟨h1, h2⟩ | h1
  · left
    refine ⟨h1, ?_, h2⟩
    split_ifs with hc <;> simp at hc ⊢ <;> omega
  · right
    split_ifs with hc <;> simp at hc ⊢ <;> omega

theorem selInv_pumpBlock1 (rows : Nat) (pan : Panel) (h : selInv pan) :
    selInv (pumpBlock1 rows pan) := by
  cases hrx : pan.entries_rx with
  | none => simpa only [pumpBlock1, hrx] using h
  | some q =>
    cases hq : tryRecv q with
    | ok b rest =>
      cases hp : pan.prefer_select_name with
      | none =>
        simp only [pumpBlock1, hrx, hq, hp]
        unfold selInv at h ⊢
        dsimp only
        simp only [List.length_append] at h ⊢
        omega
      | some pref =>
        simp only [pumpBlock1, hrx, hq, hp]
        cases hf : (pan.entries ++ b).findIdx? (fun e => e.name == pref) with
        | none =>
          simp only [hf]
          unfold selInv at h ⊢
          dsimp only
          simp only [List.length_append] at h ⊢
          omega
        | some idx =>
          simp only [hf]
          have hlt : idx < (pan.entries ++ b).length := findIdx?_lt_length hf
          unfold selInv
          rw [windowAdjust_entries, windowAdjust_selected]
          dsimp only
          right
          exact hlt
    | empty =>
      simp only [pumpBlock1, hrx, hq]
      unfold selInv at h ⊢
      dsimp only
      exact h
    | disconnected =>
      simp only [pumpBlock1, hrx, hq]
      unfold selInv at h ⊢
      dsimp only
      exact h

theorem selInv_pumpBlock2 (pan : Panel) (h : selInv pan) :
    selInv (pumpBlock2 pan) := by
  cases hrx : pan.entries_rx with
  | none => simpa only [pumpBlock2, hrx] using h
  | some q =>
    cases hq : tryRecv q with
    | ok b rest =>
      simp only [pumpBlock2, hrx, hq]
      unfold selInv at h ⊢
      dsimp only
      simp only [List.length_append] at h ⊢
      omega
    | empty =>
      simpa only [pumpBlock2, hrx, hq] using h
    | disconnected =>
      simp only [pumpBlock2, hrx, hq]
      unfold selInv at h ⊢
      dsimp only
      exact h

theorem selInv_pumpTick (rows : Nat) (pan : Panel) (h : selInv pan) :
    selInv (pumpTick rows pan) :=
  selInv_pumpBlock2 _ (selInv_clampBlock rows _ (selInv_pumpBlock1 rows pan h))

theorem selInv_select_entry (rows i : Nat) (pan : Panel) (h : selInv pan) :
    selInv (select_entry rows i pan) := by
  unfold select_entry
  split_ifs with hi
  · unfold selInv
    right
    simpa using hi
  · exact h

theorem selInv_on_scroll (rows : Nat) (d : Int) (pan : Panel) (h : selInv pan) :
    selInv (on_scroll rows d pan) := by
  unfold selInv at h ⊢
  unfold on_scroll
  simpa using h

theorem selInv_applyOp (op : PanelOp) (pan : Panel) (h : selInv pan) :
    selInv (applyOp op pan) := by
  cases op with
  | sel rows i => exact selInv_select_entry rows i pan h
  | tick rows => exact selInv_pumpTick rows pan h
  | scroll rows d => exact selInv_on_scroll rows d pan h

theorem selInv_applyOps (ops : List PanelOp) (pan : Panel) (h : selInv pan) :
    selInv (applyOps ops pan) := by
  induction ops generalizing pan with
  | nil => exact h
  | cons op ops ih => exact ih _ (selInv_applyOp op pan h)

/-- The per-tick pump establishes the cursor-visibility invariant on any
panel satisfying the selection bound. -/
theorem pumpTick_windowInv (rows : Nat) (pan : Panel) (hr : 1 ≤ rows)
    (h : selInv pan) : windowInv rows (pumpTick rows pan) := by
  have h1 : selInv (pumpBlock1 rows pan) := selInv_pumpBlock1 rows pan h
  have hcw := clampBlock_window rows (pumpBlock1 rows pan) hr h1
  unfold pumpTick
  set pan2 := clampBlock rows (pumpBlock1 rows pan) with hpan2
  cases hrx : pan2.entries_rx with
  | none =>
    simp only [pumpBlock2, hrx]
    unfold windowInv
    rcases hcw with ⟨hz, ht, hs⟩ | hw
    · left; exact hz
    · right; exact hw
  | some q =>
    cases hq : tryRecv q with
    | ok b rest =>
      simp only [pumpBlock2, hrx, hq]
      unfold windowInv
      dsimp only
      rcases hcw with ⟨hz, ht, hs⟩ | hw
      · right
        rw [ht, hs]
        omega
      · right
        exact hw
    | empty =>
      simp only [pumpBlock2, hrx, hq]
      unfold windowInv
      rcases hcw with ⟨hz, ht, hs⟩ | hw
      · left; exact hz
      · right; exact hw
    | disconnected =>
      simp only [pumpBlock2, hrx, hq]
      unfold windowInv
      dsimp only
      rcases hcw with ⟨hz, ht, hs⟩ | hw
      · left; exact hz
      · right; exact hw

/-- An in-bounds selection call establishes the cursor-visibility
invariant. -/
theorem select_entry_windowInv (rows i : Nat) (pan : Panel) (hr : 1 ≤ rows)
    (hi : i < pan.entries.length) :
    windowInv rows (select_entry rows i pan) := by
  unfold select_entry
  rw [if_pos hi]
  have hw := windowAdjust_window rows { pan with selected_index := i } hr
  unfold windowInv
  right
  simp at hw ⊢
  exact hw

/-- A scroll call never changes the selection or the entries. -/
theorem on_scroll_fields (rows : Nat) (d : Int) (pan : Panel) :
    (on_scroll rows d pan).selected_index = pan.selected_index ∧
      (on_scroll rows d pan).entries = pan.entries := by
  unfold on_scroll
  exact ⟨rfl, rfl⟩

/-- C3 (amended): from any panel satisfying the selection bound, after any
sequence of selectIndex, pump and scroll calls the selection stays in range
(`selectedIndex < entries.length` whenever entries is non-empty, an empty
panel staying at 0); the cursor-visibility window
`topIndex ≤ selectedIndex ≤ topIndex + visibleRows - 1` additionally holds
after every pump call and after every in-bounds selectIndex call; a scroll
call changes neither the selection nor the entries, but only `topIndex` —
it does not re-establish the window bound (see the counterexample). -/
theorem panel_invariant_after_ops (pan : Panel) (ops : List PanelOp)
    (h : selInv pan) :
    selInv (applyOps ops pan) ∧
    (∀ rows, 1 ≤ rows → windowInv rows (pumpTick rows (applyOps ops pan))) ∧
    (∀ rows i, 1 ≤ rows → i < (applyOps ops pan).entries.length →
      windowInv rows (select_entry rows i (applyOps ops pan))) ∧
    (∀ rows d, (on_scroll rows d (applyOps ops pan)).selected_index =
        (applyOps ops pan).selected_index ∧
      (on_scroll rows d (applyOps ops pan)).entries = (applyOps ops pan).entries) := by
  have hs := selInv_applyOps ops pan h
  exact ⟨hs,
    fun rows hr => pumpTick_windowInv rows _ hr hs,
    fun rows i hr hi => select_entry_windowInv rows i _ hr hi,
    fun rows d => on_scroll_fields rows d _⟩

/-- C3 counterexample: on a valid 20-entry panel with the cursor at 0 and 10
visible rows, one scroll-wheel call moves `topIndex` to 3 and leaves the
cursor outside the visible window, refuting the claim that the window bound
holds after any sequence of selectIndex/pump/scroll calls; the selection
bound itself survives. -/
theorem scroll_breaks_window_invariant :
    selInv scrollDemoPanel ∧
    windowInv 10 scrollDemoPanel ∧
    ¬ windowInv 10 (applyOps [PanelOp.scroll 10 3] scrollDemoPanel) ∧
    (applyOps [PanelOp.scroll 10 3] scrollDemoPanel).selected_index <
      (applyOps [PanelOp.scroll 10 3] scrollDemoPanel).entries.length := by
  decide

/-- Witness for the amended panel invariant on a concrete panel and op
sequence: a scroll followed by a pump restores the window bound. -/
theorem panel_invariant_after_ops_witness :
    selInv (applyOps [PanelOp.scroll 10 3] scrollDemoPanel) ∧
    windowInv 10 (pumpTick 10 (applyOps [PanelOp.scroll 10 3] scrollDemoPanel)) :=
  ⟨(panel_invariant_after_ops scrollDemoPanel [PanelOp.scroll 10 3] (by decide)).1,
   (panel_invariant_after_ops scrollDemoPanel [PanelOp.scroll 10 3]
      (by decide)).2.1 10 (by decide)⟩

@[simp] theorem tryRecv_nil_open : tryRecv ⟨[], false⟩ = RecvResult.empty := rfl

@[simp] theorem tryRecv_nil_closed :
    tryRecv ⟨[], true⟩ = RecvResult.disconnected := rfl

@[simp] theorem tryRecv_cons (b : List DirEntry) (rest : List (List DirEntry))
    (c : Bool) : tryRecv ⟨b :: rest, c⟩ = RecvResult.ok b ⟨rest, c⟩ := rfl

/-- The pump's second receive leaves entries and selection alone when the
queue is gone, empty or closed. -/
theorem pumpBlock2_entries_sel (pan : Panel)
    (hq : pan.entries_rx = none ∨ ∃ c, pan.entries_rx = some ⟨[], c⟩) :
    (pumpBlock2 pan).entries = pan.entries ∧
      (pumpBlock2 pan).selected_index = pan.selected_index := by
  rcases hq with hq | ⟨c, hq⟩
  · simp only [pumpBlock2, hq]
    exact ⟨trivial, trivial⟩
  · cases c
    · simp only [pumpBlock2, hq, tryRecv_nil_open]
      exact ⟨trivial, trivial⟩
    · simp only [pumpBlock2, hq, tryRecv_nil_closed]
      exact ⟨trivial, trivial⟩

/-- The pump's first receive is the identity (up to dropping the dead
receiver) when the queue is gone, empty or closed. -/
theorem pumpBlock1_cases (rows : Nat) (pan : Panel)
    (hq : pan.entries_rx = none ∨ ∃ c, pan.entries_rx = some ⟨[], c⟩) :
    pumpBlock1 rows pan = pan ∨
      pumpBlock1 rows pan = { pan with entries_rx := none } := by
  rcases hq with hq | ⟨c, hq⟩
  · left
    simp only [pumpBlock1, hq]
  · cases c
    · left
      simp only [pumpBlock1, hq, tryRecv_nil_open]
      rw [← hq]
    · right
      simp only [pumpBlock1, hq, tryRecv_nil_closed]

/-- C9: running the per-tick pump on a panel whose pending queue is empty or
closed, or which has no pending queue, never mutates the panel's entries list
or its selected index.  The selection-bound hypothesis is the invariant every
reachable panel satisfies. -/
theorem pump_noop_when_nothing_pending (rows : Nat) (pan : Panel)
    (hs : selInv pan)
    (hq : pan.entries_rx = none ∨ ∃ c, pan.entries_rx = some ⟨[], c⟩) :
    (pumpTick rows pan).entries = pan.entries ∧
      (pumpTick rows pan).selected_index = pan.selected_index := by
  unfold pumpTick
  rcases pumpBlock1_cases rows pan hq with hb | hb <;> rw [hb]
  · obtain ⟨he, hsel, hrx, -⟩ := clampBlock_fields rows pan hs
    have hq2 : (clampBlock rows pan).entries_rx = none ∨
        ∃ c, (clampBlock rows pan).entries_rx = some ⟨[], c⟩ := by
      rw [hrx]
      exact hq
    obtain ⟨he2, hsel2⟩ := pumpBlock2_entries_sel _ hq2
    rw [he2, hsel2, he, hsel]
    exact ⟨rfl, rfl⟩
  · have hs2 : selInv { pan with entries_rx := none } := by
      unfold selInv at hs ⊢
      dsimp only
      exact hs
    obtain ⟨he, hsel, hrx, -⟩ := clampBlock_fields rows { pan with entries_rx := none } hs2
    have hq2 : (clampBlock rows { pan with entries_rx := none }).entries_rx = none ∨
        ∃ c, (clampBlock rows { pan with entries_rx := none }).entries_rx =
          some ⟨[], c⟩ := by
      rw [hrx]
      left
      rfl
    obtain ⟨he2, hsel2⟩ := pumpBlock2_entries_sel _ hq2
    rw [he2, hsel2, he, hsel]
    exact ⟨rfl, rfl⟩

/-- Witness for pump idempotence: a one-entry panel with a closed empty queue
is left untouched by a pump tick. -/
theorem pump_noop_when_nothing_pending_witness :
    (pumpTick 10 ⟨[], .Fs, 0, [default], some ⟨[], true⟩, none, 0⟩).entries =
      (⟨[], .Fs, 0, [default], some ⟨[], true⟩, none, 0⟩ : Panel).entries ∧
    (pumpTick 10 ⟨[], .Fs, 0, [default], some ⟨[], true⟩, none, 0⟩).selected_index =
      (⟨[], .Fs, 0, [default], some ⟨[], true⟩, none, 0⟩ : Panel).selected_index :=
  pump_noop_when_nothing_pending 10 _ (by decide) (Or.inr ⟨true, rfl⟩)

theorem pumpBlock2_none (pan : Panel) (h : pan.entries_rx = none) :
    pumpBlock2 pan = pan := by
  simp only [pumpBlock2, h]

/-- C2 (amended): when a tick pumps a panel that has a pending
`prefer_select_name` and a waiting batch, the batch is appended, the request
is consumed whether or not it matches (it is not retried on later batches),
the receiver is dropped with the rest of the stream, and the selection moves
to the first entry of the preferred name exactly when one exists in the
updated list. -/
theorem pump_prefer_restore (rows : Nat) (pan : Panel) (pref : Bytes)
    (b : List DirEntry) (rest : List (List DirEntry)) (c : Bool)
    (hq : pan.entries_rx = some ⟨b :: rest, c⟩)
    (hp : pan.prefer_select_name = some pref)
    (hs : selInv pan) :
    (pumpTick rows pan).entries = pan.entries ++ b ∧
    (pumpTick rows pan).prefer_select_name = none ∧
    (pumpTick rows pan).entries_rx = none ∧
    (∀ idx, (pan.entries ++ b).findIdx? (fun e => e.name == pref) = some idx →
      (pumpTick rows pan).selected_index = idx) ∧
    ((pan.entries ++ b).findIdx? (fun e => e.name == pref) = none →
      (pumpTick rows pan).selected_index = pan.selected_index) := by
  unfold pumpTick
  cases hf : (pan.entries ++ b).findIdx? (fun e => e.name == pref) with
  | some idx =>
    have hb1 : pumpBlock1 rows pan = windowAdjust rows
        { pan with
            entries := pan.entries ++ b
            entries_rx := none
            prefer_select_name := none
            selected_index := idx } := by
      simp only [pumpBlock1, hq, tryRecv_cons, hp, hf]
    rw [hb1]
    set w := windowAdjust rows
      { pan with
          entries := pan.entries ++ b
          entries_rx := none
          prefer_select_name := none
          selected_index := idx } with hw
    have hwe : w.entries = pan.entries ++ b := by rw [hw, windowAdjust_entries]
    have hws : w.selected_index = idx := by rw [hw, windowAdjust_selected]
    have hwr : w.entries_rx = none := by rw [hw, windowAdjust_rx]
    have hwp : w.prefer_select_name = none := by rw [hw, windowAdjust_prefer]
    have hsw : selInv w := by
      unfold selInv
      rw [hwe, hws]
      right
      exact findIdx?_lt_length hf
    obtain ⟨he, hsel, hrx, hpref⟩ := clampBlock_fields rows w hsw
    rw [pumpBlock2_none _ (by rw [hrx, hwr]), he, hsel, hrx, hpref, hwe, hws,
      hwr, hwp]
    refine ⟨rfl, rfl, rfl, ?_, ?_⟩
    · intro idx2 hf2
      exact Option.some.inj hf2
    · intro hf2
      simp at hf2
  | none =>
    have hb1 : pumpBlock1 rows pan =
        { pan with
            entries := pan.entries ++ b
            entries_rx := none
            prefer_select_name := none } := by
      simp only [pumpBlock1, hq, tryRecv_cons, hp, hf]
    rw [hb1]
    set w : Panel :=
      { pan with
          entries := pan.entries ++ b
          entries_rx := none
          prefer_select_name := none } with hw
    have hsw : selInv w := by
      unfold selInv at hs ⊢
      rw [hw]
      dsimp only
      simp only [List.length_append]
      omega
    obtain ⟨he, hsel, hrx, hpref⟩ := clampBlock_fields rows w hsw
    rw [pumpBlock2_none _ (by rw [hrx]), he, hsel, hrx, hpref]
    refine ⟨rfl, rfl, rfl, ?_, ?_⟩
    · intro idx2 hf2
      simp at hf2
    · intro _
      rfl

/-- Witness for the amended pump-restore: the preferred name arrives in the
first batch and the selection lands on it, the request being consumed. -/
theorem pump_prefer_restore_witness :
    (pumpTick 10 preferDemoPanel).selected_index = 0 ∧
    (pumpTick 10 preferDemoPanel).prefer_select_name = none :=
  ⟨(pump_prefer_restore 10 preferDemoPanel [120] [⟨[120], false, .Fs []⟩] []
      true rfl rfl (by decide)).2.2.2.1 0 (by decide),
   (pump_prefer_restore 10 preferDemoPanel [120] [⟨[120], false, .Fs []⟩] []
      true rfl rfl (by decide)).2.1⟩

/-- C2 counterexample: in the spec's round trip — `"x"` selected inside `/d`,
navigate to the parent via `".."`, navigate back into `/d`, stream fully
pumped — the final selection is the `".."` placeholder, not `"x"`, although
`"x"` is present in the final list: `open_selected` records the name selected
at open time (i.e. `".."`) into the memory map, and that request is what the
pump restores. -/
theorem roundtrip_restores_placeholder_not_x :
    (demoStart.pan.entries.getD demoStart.pan.selected_index default).name =
      [120] ∧
    demoFinal.pan.current_path = [[100]] ∧
    demoFinal.pan.entries_rx = none ∧
    [120] ∈ demoFinal.pan.entries.map DirEntry.name ∧
    (demoFinal.pan.entries.getD demoFinal.pan.selected_index default).name =
      dotdotName := by
  decide

end Fileman
